import Mathlib

/-!
Shallow embedding of the configuration store and mood engine of the
opencode-personality plugin (`src/config.ts`, `src/commands/mood.ts`,
`src/types.ts`), together with theorems settling the frozen claims.

JavaScript objects with string keys are modelled as association lists
(`JsRecord`), keeping insertion order significant, since `Object.keys`,
spread (`{...a, ...b}`) and key assignment all observe insertion order.
JavaScript numbers appearing in state files are modelled as rationals;
a `MoodState.score` is `Option ℚ` with `none` standing for `NaN`
(the only score the code ever tests for with `Number.isNaN`).
-/

namespace OpencodePersonality

/-! ## JavaScript object model -/

/-- A JavaScript object with string keys: entries in insertion order. -/
abbrev JsRecord (α : Type) := List (String × α)

/-- Lookup `o[k]`: first entry with key `k` (JS objects never hold duplicate keys). -/
def lookupKey {α : Type} : JsRecord α → String → Option α
  | [], _ => none
  | (k', v) :: rest, k => if k' = k then some v else lookupKey rest k

/-- Membership `k in o`, also the truthiness of `o[k]` for object-valued entries. -/
def containsKey {α : Type} (o : JsRecord α) (k : String) : Bool :=
  (lookupKey o k).isSome

/-- Assignment `o[k] = v`: replace the first entry with key `k` in place, else append —
exactly the insertion-order behaviour of JS key assignment. -/
def setKey {α : Type} : JsRecord α → String → α → JsRecord α
  | [], k, v => [(k, v)]
  | (k', v') :: rest, k, v =>
      if k' = k then (k', v) :: rest else (k', v') :: setKey rest k v

/-- Spread `{...a, ...b}`: start from `a` and assign each entry of `b` in order. -/
def spread {α : Type} (a b : JsRecord α) : JsRecord α :=
  b.foldl (fun acc e => setKey acc e.1 e.2) a

/-- Drop every entry with key `k` (the `for`/`if (k !== key)` copy loops). -/
def removeKey {α : Type} (o : JsRecord α) (k : String) : JsRecord α :=
  o.filter (fun e => e.1 ≠ k)

/-- Keys `Object.keys o` in insertion order. -/
def keysOf {α : Type} (o : JsRecord α) : List String :=
  o.map Prod.fst

/-- First-defined choice: the value a precedence overlay yields at one key. -/
def jsOr {α : Type} (a b : Option α) : Option α :=
  match a with
  | some v => some v
  | none => b

/-! ## Data model (`src/types.ts`) -/

/-- Mood identifier string. -/
abbrev MoodName := String

/-- One entry of a mood catalog. -/
structure MoodDefinition where
  name : MoodName
  hint : String
  score : ℚ
deriving DecidableEq, Repr

/-- Configuration for the mood system.  `seed` is an optional field. -/
structure MoodConfig where
  enabled : Bool
  default : MoodName
  override : Option MoodName
  drift : ℚ
  toast : Bool
  seed : Option ℚ
deriving DecidableEq, Repr

/-- Runtime state of the mood system.  `score = none` models a `NaN`. -/
@[ext]
structure MoodState where
  current : MoodName
  score : Option ℚ
  lastUpdate : ℤ
  override : Option MoodName
  overrideExpiry : Option ℤ
deriving DecidableEq, Repr

/-- Single personality definition; `name` and `moods` are optional fields. -/
structure PersonalityDefinition where
  name : Option String
  description : String
  emoji : Bool
  slangIntensity : ℚ
  moods : Option (List MoodDefinition)
  mood : MoodConfig
deriving DecidableEq, Repr

/-- Legacy single-personality file: a definition plus an optional embedded
state (`LegacyPersonalityFile = PersonalityDefinition & { state?: MoodState }`).
The TS code splits it with `const { state, ...definition } = legacy`; the
two components are kept split here. -/
structure LegacyPersonalityFile where
  definition : PersonalityDefinition
  state : Option MoodState
deriving DecidableEq, Repr

/-- Multi-personality file format stored on disk; `states` is optional. -/
structure PersonalityFile where
  active : String
  personalities : JsRecord PersonalityDefinition
  states : Option (JsRecord MoodState)
deriving DecidableEq, Repr

/-! ## Constants (`src/config.ts`) -/

def DEFAULT_MOOD_CONFIG : MoodConfig :=
  { enabled := false
    default := "happy"
    override := none
    drift := 1/5
    toast := true
    seed := none }

def DEFAULT_MOODS : List MoodDefinition :=
  [ { name := "bored"
      hint := "Your responses should feel slightly disinterested, using shorter sentences and occasional sighs."
      score := -2 },
    { name := "angry"
      hint := "Your responses should have an edge - terse, direct, maybe a bit snippy."
      score := -1 },
    { name := "disappointed"
      hint := "Your responses should feel a bit deflated, with lowered expectations."
      score := 0 },
    { name := "happy"
      hint := "Your responses should be warm, engaged, and positive."
      score := 1 },
    { name := "ecstatic"
      hint := "Your responses should be enthusiastic, excited, with lots of energy!"
      score := 2 } ]

/-! ## Legacy migration (`src/config.ts`, `migrateLegacyToMulti`) -/

/-- Key derivation `definition.name?.trim() || "default"`: an absent name,
or one that trims to the empty string, falls back to `"default"`. -/
def legacyKey (d : PersonalityDefinition) : String :=
  match d.name with
  | some n => if n.trim = "" then "default" else n.trim
  | none => "default"

/-- Convert a legacy single-personality file to multi-personality format.
The whole object minus the embedded `state` becomes the sole entry of
`personalities`; an embedded truthy `state` moves to `states[key]`. -/
def migrateLegacyToMulti (legacy : LegacyPersonalityFile) : PersonalityFile :=
  let key := legacyKey legacy.definition
  { active := key
    personalities := [(key, legacy.definition)]
    states := legacy.state.map (fun s => [(key, s)]) }

/-! ## Multi-personality operations (`src/config.ts`) -/

/-- Get the active personality definition (`file.personalities[file.active] ?? null`). -/
def getActivePersonality (file : PersonalityFile) : Option PersonalityDefinition :=
  lookupKey file.personalities file.active

/-- Add or update a personality (pure). -/
def addPersonality (file : PersonalityFile) (key : String)
    (definition : PersonalityDefinition) : PersonalityFile :=
  { file with personalities := setKey file.personalities key definition }

/-- Remove a personality.  Returns `none` when the last personality is
removed; when the removed key was active, `active` becomes the first
remaining key; the per-key mood state is dropped alongside, and the
`states` field is omitted again when it ends up empty. -/
def removePersonality (file : PersonalityFile) (key : String) :
    Option PersonalityFile :=
  let remaining := removeKey file.personalities key
  match remaining with
  | [] => none
  | first :: _ =>
      let newStates := removeKey ((file.states).getD []) key
      some
        { active := if file.active = key then first.1 else file.active
          personalities := remaining
          states := if newStates.isEmpty then none else some newStates }

/-- Switch the active personality; `none` when the name is absent. -/
def switchActivePersonality (file : PersonalityFile) (name : String) :
    Option PersonalityFile :=
  if containsKey file.personalities name then some { file with active := name }
  else none

/-! ## Defaults merging (`src/config.ts`, `deepMerge` / `mergeWithDefaults`)

`deepMerge` is generic over JS records; here it is specialised to the two
record shapes it is actually applied to.  On `PersonalityDefinition`
every field except `mood` holds a primitive or an array, so a defined
source value replaces the target wholesale (arrays are never merged
element-wise); `mood` holds a plain object on both sides, so it merges
recursively key-by-key.  Inside `MoodConfig` every field is a primitive
or `null`, so the recursion bottoms out in per-key replacement (a `null`
source value is defined, hence replaces). -/

/-- A `Partial<MoodConfig>`-shaped source object: `none` marks an absent
key.  `override`'s inner `Option` distinguishes `null` from a name. -/
structure PartialMoodConfig where
  enabled : Option Bool
  default : Option MoodName
  override : Option (Option MoodName)
  drift : Option ℚ
  toast : Option Bool
  seed : Option ℚ
deriving DecidableEq, Repr

/-- A partial personality definition: `none` marks an absent key. -/
structure PartialPersonalityDefinition where
  name : Option String
  description : Option String
  emoji : Option Bool
  slangIntensity : Option ℚ
  moods : Option (List MoodDefinition)
  mood : Option PartialMoodConfig
deriving DecidableEq, Repr

/-- The `deepMerge` function specialised to `MoodConfig`: per-key last-write-wins. -/
def deepMergeMoodConfig (target : MoodConfig) (source : PartialMoodConfig) :
    MoodConfig :=
  { enabled := source.enabled.getD target.enabled
    default := source.default.getD target.default
    override := source.override.getD target.override
    drift := source.drift.getD target.drift
    toast := source.toast.getD target.toast
    seed := match source.seed with
      | some q => some q
      | none => target.seed }

/-- The `deepMerge` function specialised to `PersonalityDefinition`: primitive and
array fields replace wholesale, the `mood` object merges recursively. -/
def deepMergePersonality (target : PersonalityDefinition)
    (source : PartialPersonalityDefinition) : PersonalityDefinition :=
  { name := match source.name with
      | some n => some n
      | none => target.name
    description := source.description.getD target.description
    emoji := source.emoji.getD target.emoji
    slangIntensity := source.slangIntensity.getD target.slangIntensity
    moods := match source.moods with
      | some m => some m
      | none => target.moods
    mood := match source.mood with
      | some pm => deepMergeMoodConfig target.mood pm
      | none => target.mood }

/-- The fixed default skeleton built at the top of `mergeWithDefaults`. -/
def defaultSkeleton : PersonalityDefinition :=
  { name := some ""
    description := ""
    emoji := false
    slangIntensity := 0
    moods := some DEFAULT_MOODS
    mood := DEFAULT_MOOD_CONFIG }

/-- Produce a complete definition by deep-merging `partial` over the
default skeleton, then re-merging `partial.mood` once more when present
(mirroring the explicit `if (partial.mood)` step of the source). -/
def mergeWithDefaults (p : PartialPersonalityDefinition) :
    PersonalityDefinition :=
  let merged := deepMergePersonality defaultSkeleton p
  match p.mood with
  | some pm => { merged with mood := deepMergeMoodConfig merged.mood pm }
  | none => merged

/-- View a complete definition as the partial object that passing it back
into `mergeWithDefaults` amounts to: every present JS key becomes a
defined source field. -/
def moodConfigToPartial (c : MoodConfig) : PartialMoodConfig :=
  { enabled := some c.enabled
    default := some c.default
    override := some c.override
    drift := some c.drift
    toast := some c.toast
    seed := c.seed }

/-- A full `PersonalityDefinition` reread as a partial (its optional
`name`/`moods` keys are present exactly when they hold a value). -/
def personalityToPartial (d : PersonalityDefinition) :
    PartialPersonalityDefinition :=
  { name := d.name
    description := some d.description
    emoji := some d.emoji
    slangIntensity := some d.slangIntensity
    moods := d.moods
    mood := some (moodConfigToPartial d.mood) }

/-! ## Config loading with precedence (`src/config.ts`)

File I/O is abstracted: the two layers arrive as `Option PersonalityFile`
values (`none` = absent file), exactly what `loadPersonalityFile` hands
to the body of `loadConfigWithPrecedence`. -/

/-- Where the merged config was loaded from. -/
inductive ConfigSource where
  | srcNone
  | srcGlobal
  | srcProject
  | srcBoth
deriving DecidableEq, Repr

/-- Result of loading config with precedence. -/
structure ConfigResult where
  config : Option PersonalityDefinition
  file : Option PersonalityFile
  source : ConfigSource
  statePath : String
  globalPath : String
  projectPath : String
deriving DecidableEq, Repr

/-- The both-layers-present merge: project's `active`, personalities and
states overlaid key-by-key with project winning, and the `states` field
omitted again when the overlay is empty. -/
def mergeFiles (g p : PersonalityFile) : PersonalityFile :=
  let mergedStates := spread ((g.states).getD []) ((p.states).getD [])
  { active := p.active
    personalities := spread g.personalities p.personalities
    states := if mergedStates.isEmpty then none else some mergedStates }

/-- The raw store before the active-key fallback: merge when both layers
are present, otherwise the single present layer unchanged. -/
def rawMerged (globalFile projectFile : Option PersonalityFile) :
    Option PersonalityFile :=
  match globalFile, projectFile with
  | none, none => none
  | some g, some p => some (mergeFiles g p)
  | none, some p => some p
  | some g, none => some g

/-- Source comment: `// Ensure active personality exists, fall back to first available`. -/
def fixActive (f : PersonalityFile) : PersonalityFile :=
  if containsKey f.personalities f.active then f
  else
    match f.personalities with
    | [] => f
    | (k, _) :: _ => { f with active := k }

/-- The `loadConfigWithPrecedence` function, with the two layers' decoded contents and
their paths passed explicitly in place of the filesystem reads. -/
def loadConfigWithPrecedence (globalPath projectPath : String)
    (globalFile projectFile : Option PersonalityFile) : ConfigResult :=
  match rawMerged globalFile projectFile with
  | none =>
      { config := none
        file := none
        source := .srcNone
        statePath := ""
        globalPath := globalPath
        projectPath := projectPath }
  | some merged =>
      let fixed := fixActive merged
      { config := (getActivePersonality fixed).map
          (fun d => mergeWithDefaults (personalityToPartial d))
        file := some fixed
        source := match globalFile, projectFile with
          | some _, some _ => .srcBoth
          | _, some _ => .srcProject
          | _, _ => .srcGlobal
        statePath := if projectFile.isSome then projectPath else globalPath
        globalPath := globalPath
        projectPath := projectPath }

/-! ## File saving (`src/config.ts`)

The disk content at the target path is passed and returned explicitly;
for `saveMoodState` a `none` result means no write happened. -/

/-- The store `saveMoodState` writes back: `states[activeKey] = state`,
everything else untouched (a previously absent `states` key starts from
the empty object and is always written afterwards). -/
def writeBackStates (file : PersonalityFile) (state : MoodState)
    (activeKey : String) : PersonalityFile :=
  { file with states := some (setKey ((file.states).getD []) activeKey state) }

/-- Persist a mood state: a missing store is a silent no-op (`none`),
otherwise only `states[activeKey]` is replaced. -/
def saveMoodState (disk : Option PersonalityFile) (state : MoodState)
    (activeKey : String) : Option PersonalityFile :=
  match disk with
  | none => none
  | some file => some (writeBackStates file state activeKey)

/-- Save a personality definition, preserving other personalities and
states; creates the multi-personality shape when the file is absent.
After inserting the definition, `active` is reassigned to `key` when
`setActive` is requested or the current active key does not resolve. -/
def savePersonalityToFile (disk : Option PersonalityFile) (key : String)
    (definition : PersonalityDefinition) (setActive : Bool) :
    PersonalityFile :=
  let file := disk.getD { active := key, personalities := [], states := none }
  let file1 := { file with personalities := setKey file.personalities key definition }
  if setActive || !(containsKey file1.personalities file1.active) then
    { file1 with active := key }
  else file1

/-! ## Mood resolution and normalization (`src/config.ts`) -/

/-- Use the profile's custom catalog when non-empty, else the default. -/
def resolveMoods (config : PersonalityDefinition) : List MoodDefinition :=
  match config.moods with
  | some m => if m.length > 0 then m else DEFAULT_MOODS
  | none => DEFAULT_MOODS

/-- Resolve the default mood name: the configured one when it names a
catalog entry, the built-in `"happy"` for an empty catalog, else the
first catalog entry. -/
def resolveDefaultMood (config : PersonalityDefinition)
    (moods : List MoodDefinition) : MoodName :=
  match moods.find? (fun mood => mood.name = config.mood.default) with
  | some byName => byName.name
  | none =>
      match moods with
      | [] => DEFAULT_MOOD_CONFIG.default
      | m :: _ => m.name

/-- Score lookup `moods.find(item => item.name === mood)?.score ?? 0`. -/
def resolveMoodScore (mood : MoodName) (moods : List MoodDefinition) : ℚ :=
  match moods.find? (fun item => item.name = mood) with
  | some m => m.score
  | none => 0

/-- Self-healing normalization: an unknown `current` resets to the
default mood; a truthy unknown `override` clears to `null` (a JS empty
string is falsy, hence kept as-is); a `NaN` score is recomputed from the
already-corrected `current`. -/
def normalizeState (state : MoodState) (defaultMood : MoodName)
    (moods : List MoodDefinition) : MoodState :=
  let moodNames := moods.map (fun item => item.name)
  let current := if moodNames.contains state.current then state.current
    else defaultMood
  let override := match state.override with
    | some o =>
        if o ≠ "" ∧ ¬ moodNames.contains o then none else some o
    | none => none
  let score := if state.score.isNone then some (resolveMoodScore current moods)
    else state.score
  { state with current := current, override := override, score := score }

/-! ## Raw JSON loading (`src/config.ts`, `tryLoadJson` / `loadPersonalityFile`)

`JSON.parse` can produce any of the values below and nothing else (in
particular never `undefined` or `NaN`), so the falsy parses are exactly
`null`, `false`, `0` and `""`. -/

/-- A parsed JSON value. -/
inductive Json where
  | null : Json
  | bool : Bool → Json
  | num : ℚ → Json
  | str : String → Json
  | arr : List Json → Json
  | obj : List (String × Json) → Json

/-- JavaScript truthiness test restricted to `JSON.parse` results. -/
def jsFalsy : Json → Bool
  | .null => true
  | .bool b => !b
  | .num q => q = 0
  | .str s => s = ""
  | .arr _ => false
  | .obj _ => false

/-- Detection `"description" in data && !("personalities" in data)`; the `in`
operator presupposes an object (on a truthy primitive the JS code would
throw, a path no claim exercises). -/
def isLegacyFormatJson : Json → Bool
  | .obj entries =>
      containsKey entries "description" && !(containsKey entries "personalities")
  | _ => false

/-- The migration `migrateLegacyToMulti` acting on the raw parsed object: split off a
truthy `state` entry, derive the key from a trimmed string `name` (any
other `name` shape falls back to `"default"`), and rebuild the canonical
shape. -/
def migrateLegacyJson (entries : JsRecord Json) : Json :=
  let definition := removeKey entries "state"
  let key := match lookupKey entries "name" with
    | some (.str s) => if s.trim = "" then "default" else s.trim
    | _ => "default"
  let base : JsRecord Json :=
    [("active", .str key), ("personalities", .obj [(key, .obj definition)])]
  match lookupKey entries "state" with
  | some st =>
      if jsFalsy st then .obj base
      else .obj (base ++ [("states", .obj [(key, st)])])
  | none => .obj base

/-- The `loadPersonalityFile` function on the raw parse result: `none` models both a
missing file and the `if (!raw) return null` falsy guard; a truthy
legacy-format object is migrated, any other truthy value passes through. -/
def loadPersonalityFile (raw : Option Json) : Option Json :=
  match raw with
  | none => none
  | some j =>
      if jsFalsy j then none
      else if isLegacyFormatJson j then
        match j with
        | .obj entries => some (migrateLegacyJson entries)
        | _ => some j
      else some j

/-! ## Mood drift

Modelled from the spec: the drift implementation lives in `src/mood.ts`
(`driftMood` / `driftMoodWithToast`), which is not part of the sources
provided; only its callers are.  The model follows spec §4.3 verbatim:
a no-op when mood is disabled in config; a set and unexpired override
pins `current` with no numeric change; otherwise a pseudo-random delta
uniform in `[-driftMagnitude, +driftMagnitude]` — drawn from a generator
seeded deterministically from `seed` when supplied and from a
non-reproducible entropy source otherwise (the `entropy` argument) —
is added to the score, the result is clamped to the catalog's score
range and snapped to the numerically closest entry (ties to the earliest
entry), `score` keeps the clamped sub-entry value and `lastUpdate`
becomes `now`.  An empty catalog makes drift a no-op. -/

/-- Modelled from the spec: one pseudo-random unit-interval draw from a
deterministic generator state (a 64-bit linear congruential step; the
exact generator is unspecified upstream, only its determinism is). -/
def prngUnit (g : ℕ) : ℚ :=
  (((6364136223846793005 * g + 1442695040888963407) % 2 ^ 64) % 2 ^ 32 : ℕ) / 2 ^ 32

/-- Whether the override expiry has not yet passed (`null` = no expiry). -/
def overrideUnexpiredAt (state : MoodState) (now : ℤ) : Bool :=
  match state.overrideExpiry with
  | none => true
  | some expiry => now < expiry

/-- Modelled from the spec: the random-walk step of `drift` on a
non-empty catalog. -/
def driftStep (state : MoodState) (moods : List MoodDefinition)
    (driftMagnitude : ℚ) (seed : Option ℕ) (now : ℤ) (entropy : ℕ) :
    MoodState :=
  match moods with
  | [] => state
  | m0 :: rest =>
      let g := match seed with
        | some s => s
        | none => entropy
      let delta := (2 * prngUnit g - 1) * driftMagnitude
      let lo := (rest.map (fun m => m.score)).foldl min m0.score
      let hi := (rest.map (fun m => m.score)).foldl max m0.score
      let base := (state.score).getD (resolveMoodScore state.current moods)
      let clamped := max lo (min hi (base + delta))
      let snapped := moods.foldl
        (fun best m =>
          match best with
          | none => some m
          | some b => if |m.score - clamped| < |b.score - clamped| then some m
              else some b)
        none
      { current := match snapped with
          | some b => b.name
          | none => state.current
        score := some clamped
        lastUpdate := now
        override := state.override
        overrideExpiry := state.overrideExpiry }

/-- Modelled from the spec: `drift(state, catalog, driftMagnitude, seed)`,
with the config's `enabled` gate, the clock and the entropy source as
explicit arguments. -/
def drift (state : MoodState) (moods : List MoodDefinition) (enabled : Bool)
    (driftMagnitude : ℚ) (seed : Option ℕ) (now : ℤ) (entropy : ℕ) :
    MoodState :=
  if !enabled then state
  else
    match state.override with
    | some o =>
        if overrideUnexpiredAt state now then { state with current := o }
        else driftStep state moods driftMagnitude seed now entropy
    | none => driftStep state moods driftMagnitude seed now entropy

/-! ## Record lemmas -/

theorem lookupKey_setKey {α : Type} (o : JsRecord α) (k : String) (v : α)
    (k' : String) :
    lookupKey (setKey o k v) k' = if k = k' then some v else lookupKey o k' := by
  induction o with
  | nil => by_cases h : k = k' <;> simp [setKey, lookupKey, h]
  | cons e rest ih =>
      obtain ⟨a, b⟩ := e
      simp only [setKey]
      by_cases hak : a = k
      · subst hak
        simp only [if_pos rfl, lookupKey]
        by_cases h2 : a = k' <;> simp [h2]
      · simp only [if_neg hak, lookupKey]
        by_cases h2 : a = k'
        · subst h2
          rw [if_pos rfl, if_pos rfl, if_neg (fun h => hak h.symm)]
        · simp only [if_neg h2, ih]

theorem containsKey_setKey {α : Type} (o : JsRecord α) (k : String) (v : α)
    (k' : String) :
    containsKey (setKey o k v) k' =
      if k = k' then true else containsKey o k' := by
  simp only [containsKey, lookupKey_setKey]
  by_cases h : k = k' <;> simp [h]

theorem lookupKey_eq_none_of_not_mem {α : Type} (o : JsRecord α) (k : String)
    (h : k ∉ keysOf o) : lookupKey o k = none := by
  induction o with
  | nil => rfl
  | cons e rest ih =>
      obtain ⟨a, b⟩ := e
      simp only [keysOf, List.map_cons, List.mem_cons, not_or] at h
      have hak : ¬ a = k := fun hh => h.1 hh.symm
      simp only [lookupKey, if_neg hak]
      exact ih (by simpa [keysOf] using h.2)

theorem lookupKey_spread {α : Type} (a b : JsRecord α) (k : String)
    (hb : (keysOf b).Nodup) :
    lookupKey (spread a b) k =
      jsOr (lookupKey b k) (lookupKey a k) := by
  induction b generalizing a with
  | nil => simp [spread, lookupKey, jsOr]
  | cons e rest ih =>
      obtain ⟨k0, v0⟩ := e
      simp only [keysOf, List.map_cons, List.nodup_cons] at hb
      have hstep : spread a ((k0, v0) :: rest) = spread (setKey a k0 v0) rest := rfl
      rw [hstep, ih (setKey a k0 v0) (by simpa [keysOf] using hb.2)]
      by_cases hk : k0 = k
      · subst hk
        have hnone : lookupKey rest k0 = none :=
          lookupKey_eq_none_of_not_mem rest k0 (by simpa [keysOf] using hb.1)
        simp [hnone, lookupKey, lookupKey_setKey, jsOr]
      · simp [lookupKey, hk, lookupKey_setKey, jsOr]

theorem removeKey_cons {α : Type} (a : String) (b : α) (rest : JsRecord α)
    (key : String) :
    removeKey ((a, b) :: rest) key =
      if a = key then removeKey rest key else (a, b) :: removeKey rest key := by
  by_cases h : a = key <;> simp [removeKey, List.filter_cons, h]

theorem lookupKey_removeKey {α : Type} (o : JsRecord α) (key k : String) :
    lookupKey (removeKey o key) k =
      if k = key then none else lookupKey o k := by
  induction o with
  | nil => by_cases h : k = key <;> simp [removeKey, lookupKey, h]
  | cons e rest ih =>
      obtain ⟨a, b⟩ := e
      rw [removeKey_cons]
      by_cases hak : a = key
      · subst hak
        rw [if_pos rfl, ih]
        by_cases hk : k = a
        · simp [hk]
        · rw [if_neg hk, if_neg hk]
          simp only [lookupKey]
          rw [if_neg (fun h => hk h.symm)]
      · rw [if_neg hak]
        simp only [lookupKey, ih]
        by_cases h2 : a = k
        · subst h2
          rw [if_pos rfl, if_pos rfl, if_neg hak]
        · rw [if_neg h2, if_neg h2]

theorem keysOf_setKey {α : Type} (o : JsRecord α) (k : String) (v : α) :
    keysOf (setKey o k v) =
      if containsKey o k then keysOf o else keysOf o ++ [k] := by
  induction o with
  | nil => simp [setKey, keysOf, containsKey, lookupKey]
  | cons e rest ih =>
      obtain ⟨a, b⟩ := e
      by_cases hak : a = k
      · subst hak
        simp [setKey, keysOf, containsKey, lookupKey]
      · simp only [setKey, if_neg hak, keysOf, List.map_cons, containsKey,
          lookupKey, if_neg hak]
        simp only [keysOf, containsKey] at ih
        rw [ih]
        by_cases hc : (lookupKey rest k).isSome = true <;> simp [hc]

theorem keysOf_spread {α : Type} (a b : JsRecord α)
    (hb : (keysOf b).Nodup) :
    keysOf (spread a b) =
      keysOf a ++ (keysOf b).filter (fun k => !(containsKey a k)) := by
  induction b generalizing a with
  | nil => simp [spread, keysOf]
  | cons e rest ih =>
      obtain ⟨k0, v0⟩ := e
      simp only [keysOf, List.map_cons, List.nodup_cons] at hb
      have hstep : spread a ((k0, v0) :: rest) = spread (setKey a k0 v0) rest := rfl
      rw [hstep, ih (setKey a k0 v0) (by simpa [keysOf] using hb.2)]
      have hfilter : (keysOf rest).filter (fun k => !(containsKey (setKey a k0 v0) k)) =
          (keysOf rest).filter (fun k => !(containsKey a k)) := by
        apply List.filter_congr
        intro x hx
        have hxk0 : ¬ k0 = x := by
          intro h
          exact hb.1 (by simpa [keysOf, h] using hx)
        simp [containsKey_setKey, hxk0]
      rw [hfilter, keysOf_setKey]
      cases hcc : containsKey a k0 with
      | true => simp [hcc, keysOf, List.filter_cons]
      | false => simp [hcc, keysOf, List.filter_cons]

/-! ## Concrete sample values used by examples and witnesses -/

/-- A minimal personality definition used in concrete scenarios. -/
def mkDef (n : String) : PersonalityDefinition :=
  { name := some n
    description := n
    emoji := false
    slangIntensity := 0
    moods := none
    mood := DEFAULT_MOOD_CONFIG }

/-- Global layer of the spec's merge scenario: profiles `{A, B}`, active `A`. -/
def exampleGlobalFile : PersonalityFile :=
  { active := "A"
    personalities := [("A", mkDef "A"), ("B", mkDef "globalB")]
    states := none }

/-- Project layer of the spec's merge scenario: profiles `{B, C}`, active `C`. -/
def exampleProjectFile : PersonalityFile :=
  { active := "C"
    personalities := [("B", mkDef "projectB"), ("C", mkDef "C")]
    states := none }

/-- Unfold the lookup through the `states`-omitted-when-empty step. -/
theorem lookupKey_omitEmpty {α : Type} (l : JsRecord α) (k : String) :
    lookupKey (((if l.isEmpty then none else some l) : Option (JsRecord α)).getD []) k =
      lookupKey l k := by
  cases l with
  | nil => simp [List.isEmpty, lookupKey]
  | cons e rest => simp [List.isEmpty]

/-- C1: with both config layers present, `loadConfigWithPrecedence` merges the
stores with the project's `active` taken unconditionally and both the
`profiles` and `states` maps overlaid key-by-key, the project layer winning
wholesale on a colliding key; on the spec's scenario — global `{A, B}`
active `A`, project `{B, C}` active `C` — the merge yields `{A, B, C}` with
the project's `B` and active `C`. -/
theorem merge_overlays_project_over_global
    (gp pp : String) (g p : PersonalityFile) (k : String)
    (hp : (keysOf p.personalities).Nodup)
    (hs : (keysOf ((p.states).getD [])).Nodup) :
    (loadConfigWithPrecedence gp pp (some g) (some p)).file =
      some (fixActive (mergeFiles g p)) ∧
    (mergeFiles g p).active = p.active ∧
    lookupKey (mergeFiles g p).personalities k =
      jsOr (lookupKey p.personalities k) (lookupKey g.personalities k) ∧
    lookupKey (((mergeFiles g p).states).getD []) k =
      jsOr (lookupKey ((p.states).getD []) k)
        (lookupKey ((g.states).getD []) k) ∧
    mergeFiles exampleGlobalFile exampleProjectFile =
      { active := "C"
        personalities :=
          [("A", mkDef "A"), ("B", mkDef "projectB"), ("C", mkDef "C")]
        states := none } := by
  refine ⟨rfl, rfl, ?_, ?_, by rfl⟩
  · show lookupKey (spread g.personalities p.personalities) k = _
    exact lookupKey_spread g.personalities p.personalities k hp
  · show lookupKey
      (((if (spread ((g.states).getD []) ((p.states).getD [])).isEmpty then none
         else some (spread ((g.states).getD []) ((p.states).getD []))) :
        Option (JsRecord MoodState)).getD []) k = _
    rw [lookupKey_omitEmpty]
    exact lookupKey_spread ((g.states).getD []) ((p.states).getD []) k hs

/-- Witness for C1 at the spec's merge scenario, probing the colliding key `B`. -/
theorem merge_overlays_project_over_global_witness :
    (loadConfigWithPrecedence "g.json" "p.json" (some exampleGlobalFile)
      (some exampleProjectFile)).file =
      some (fixActive (mergeFiles exampleGlobalFile exampleProjectFile)) ∧
    (mergeFiles exampleGlobalFile exampleProjectFile).active =
      exampleProjectFile.active ∧
    lookupKey (mergeFiles exampleGlobalFile exampleProjectFile).personalities "B" =
      jsOr (lookupKey exampleProjectFile.personalities "B")
        (lookupKey exampleGlobalFile.personalities "B") ∧
    lookupKey (((mergeFiles exampleGlobalFile exampleProjectFile).states).getD []) "B" =
      jsOr (lookupKey ((exampleProjectFile.states).getD []) "B")
        (lookupKey ((exampleGlobalFile.states).getD []) "B") ∧
    mergeFiles exampleGlobalFile exampleProjectFile =
      { active := "C"
        personalities :=
          [("A", mkDef "A"), ("B", mkDef "projectB"), ("C", mkDef "C")]
        states := none } :=
  merge_overlays_project_over_global "g.json" "p.json" exampleGlobalFile
    exampleProjectFile "B" (by decide) (by decide)

/-- C3: legacy migration is lossless: the migrated store holds exactly one
profile, stored verbatim (state split off by type) under the key derived
from the trimmed name (or `"default"`), `active` equals that key, and an
embedded legacy state reappears verbatim at `states[key]` — `lookupKey`
of the states map returns exactly the optional legacy state. -/
theorem migrate_legacy_lossless (legacy : LegacyPersonalityFile) :
    (migrateLegacyToMulti legacy).active = legacyKey legacy.definition ∧
    (migrateLegacyToMulti legacy).personalities =
      [(legacyKey legacy.definition, legacy.definition)] ∧
    ((migrateLegacyToMulti legacy).personalities).length = 1 ∧
    lookupKey (migrateLegacyToMulti legacy).personalities
      (legacyKey legacy.definition) = some legacy.definition ∧
    lookupKey (((migrateLegacyToMulti legacy).states).getD [])
      (legacyKey legacy.definition) = legacy.state := by
  refine ⟨rfl, rfl, rfl, by simp [migrateLegacyToMulti, lookupKey], ?_⟩
  cases hst : legacy.state with
  | none => simp [migrateLegacyToMulti, hst, lookupKey]
  | some st => simp [migrateLegacyToMulti, hst, lookupKey]

/-- Second-pass `current` correction is the identity: the corrected
current either lies in the catalog or already equals the default. -/
theorem normalize_current_fix (c d : String) (names : List String) :
    (if names.contains (if names.contains c then c else d)
     then (if names.contains c then c else d) else d) =
      (if names.contains c then c else d) := by
  have e1 : (if ((true : Bool) = true) then c else d) = c := if_pos rfl
  have e2 : (if ((false : Bool) = true) then c else d) = d := if_neg (by simp)
  cases h1 : names.contains c with
  | true => rw [e1, h1, e1]
  | false =>
      rw [e2]
      cases h2 : names.contains d with
      | true => exact if_pos rfl
      | false => exact if_neg (by simp)

/-- Second-pass `override` correction is the identity: a cleared override
stays `null` and a kept one keeps passing the truthy-and-unknown test. -/
theorem normalize_override_fix (ov : Option String) (names : List String) :
    (match (match ov with
            | some o => if o ≠ "" ∧ ¬ names.contains o then none else some o
            | none => none) with
     | some o => if o ≠ "" ∧ ¬ names.contains o then none else some o
     | none => (none : Option String)) =
      (match ov with
       | some o => if o ≠ "" ∧ ¬ names.contains o then none else some o
       | none => none) := by
  cases ov with
  | none => rfl
  | some o =>
      dsimp only
      by_cases h : o ≠ "" ∧ ¬ names.contains o
      · rw [if_pos h]
      · rw [if_neg h]
        dsimp only
        rw [if_neg h]

/-- C6: `normalizeState` is idempotent for every state, default mood and
catalog (the empty catalog included): a second pass leaves the corrected
`current`, `override` and `score` untouched. -/
theorem normalizeState_idempotent (s : MoodState) (d : MoodName)
    (moods : List MoodDefinition) :
    normalizeState (normalizeState s d moods) d moods =
      normalizeState s d moods := by
  simp only [normalizeState]
  refine MoodState.ext ?_ ?_ rfl ?_ rfl
  · exact normalize_current_fix s.current d (moods.map (fun item => item.name))
  · cases hsc : s.score with
    | none => simp
    | some q => simp
  · exact normalize_override_fix s.override (moods.map (fun item => item.name))

/-- C7: `mergeWithDefaults` is total — the result always carries a defined
mood catalog (`moods`) and, by construction of its record type, a defined
mood config — and idempotent: feeding the completed definition back in as
a partial reproduces it exactly. -/
theorem mergeWithDefaults_total_idempotent (p : PartialPersonalityDefinition) :
    ((mergeWithDefaults p).moods).isSome = true ∧
    mergeWithDefaults (personalityToPartial (mergeWithDefaults p)) =
      mergeWithDefaults p := by
  obtain ⟨n, ds, em, sl, mo, mc⟩ := p
  cases mc with
  | none => cases n <;> cases mo <;> exact ⟨rfl, rfl⟩
  | some pm =>
      obtain ⟨pe, pd, po, pdr, pt, ps⟩ := pm
      cases n <;> cases mo <;> cases ps <;> exact ⟨rfl, rfl⟩

/-- Removing one key from a duplicate-free record with at least two
entries always leaves an entry behind. -/
theorem removeKey_ne_nil {α : Type} (o : JsRecord α) (key : String)
    (hnodup : (keysOf o).Nodup) (hlen : 2 ≤ o.length) :
    removeKey o key ≠ [] := by
  cases o with
  | nil => simp at hlen
  | cons e1 t =>
      cases t with
      | nil => simp at hlen
      | cons e2 rest =>
          intro hnil
          have hall := List.filter_eq_nil_iff.mp hnil
          have h1 : e1.1 = key := by
            have := hall e1 (by simp)
            simpa using this
          have h2 : e2.1 = key := by
            have := hall e2 (by simp)
            simpa using this
          have hne : e1.1 ≠ e2.1 := by
            have := (List.nodup_cons.mp hnodup).1
            simp only [keysOf, List.map_cons, List.mem_cons] at this
            exact fun h => this (Or.inl h)
          exact hne (h1.trans h2.symm)

/-- A sample mood state for concrete scenarios. -/
def sampleState : MoodState :=
  { current := "happy"
    score := some 1
    lastUpdate := 0
    override := none
    overrideExpiry := none }

/-- A two-profile store used to witness the removal claim. -/
def sampleTwoFile : PersonalityFile :=
  { active := "A"
    personalities := [("A", mkDef "A"), ("B", mkDef "B")]
    states := some [("A", sampleState)] }

/-- C2: on a store with at least two (duplicate-free) profiles, removing a
non-active key preserves `active`, removing the active key reassigns
`active` to the first remaining key in insertion order, the removed key
vanishes from both `profiles` and `states` while every other key is
retained, and removing the sole profile of a one-profile store yields
`null`. -/
theorem removePersonality_spec (f : PersonalityFile) (key k' : String)
    (a : String) (d : PersonalityDefinition)
    (sts : Option (JsRecord MoodState))
    (hnodup : (keysOf f.personalities).Nodup)
    (hlen : 2 ≤ f.personalities.length) :
    removePersonality f key ≠ none ∧
    (f.active ≠ key → ((removePersonality f key).getD f).active = f.active) ∧
    (f.active = key →
      (keysOf (removeKey f.personalities key)).head? =
        some ((removePersonality f key).getD f).active) ∧
    lookupKey ((removePersonality f key).getD f).personalities key = none ∧
    lookupKey ((((removePersonality f key).getD f).states).getD []) key =
      none ∧
    (k' ≠ key →
      lookupKey ((removePersonality f key).getD f).personalities k' =
        lookupKey f.personalities k' ∧
      lookupKey ((((removePersonality f key).getD f).states).getD []) k' =
        lookupKey ((f.states).getD []) k') ∧
    removePersonality
      { active := a, personalities := [(key, d)], states := sts } key =
      none := by
  have hne := removeKey_ne_nil f.personalities key hnodup hlen
  cases hrem : removeKey f.personalities key with
  | nil => exact absurd hrem hne
  | cons first tail =>
      have hsome : removePersonality f key = some
          { active := if f.active = key then first.1 else f.active
            personalities := first :: tail
            states :=
              if (removeKey ((f.states).getD []) key).isEmpty then none
              else some (removeKey ((f.states).getD []) key) } := by
        simp only [removePersonality, hrem]
      rw [hsome]
      refine ⟨by simp, ?_, ?_, ?_, ?_, ?_, ?_⟩
      · intro hak
        simp [if_neg hak]
      · intro hak
        simp [hrem, keysOf, if_pos hak]
      · show lookupKey (first :: tail) key = none
        rw [← hrem, lookupKey_removeKey, if_pos rfl]
      · show lookupKey
          (((if (removeKey ((f.states).getD []) key).isEmpty then none
             else some (removeKey ((f.states).getD []) key)) :
            Option (JsRecord MoodState)).getD []) key = none
        rw [lookupKey_omitEmpty, lookupKey_removeKey, if_pos rfl]
      · intro hk'
        constructor
        · show lookupKey (first :: tail) k' = lookupKey f.personalities k'
          rw [← hrem, lookupKey_removeKey, if_neg hk']
        · show lookupKey
            (((if (removeKey ((f.states).getD []) key).isEmpty then none
               else some (removeKey ((f.states).getD []) key)) :
              Option (JsRecord MoodState)).getD []) k' =
            lookupKey ((f.states).getD []) k'
          rw [lookupKey_omitEmpty, lookupKey_removeKey, if_neg hk']
      · simp [removePersonality, removeKey]

/-- Witness for C2 on a concrete two-profile store, removing the active
key `A` and probing the retained key `B`, plus a one-profile store whose
sole key `A` is removed. -/
theorem removePersonality_spec_witness :
    removePersonality sampleTwoFile "A" ≠ none ∧
    (sampleTwoFile.active ≠ "A" →
      ((removePersonality sampleTwoFile "A").getD sampleTwoFile).active =
        sampleTwoFile.active) ∧
    (sampleTwoFile.active = "A" →
      (keysOf (removeKey sampleTwoFile.personalities "A")).head? =
        some ((removePersonality sampleTwoFile "A").getD sampleTwoFile).active) ∧
    lookupKey
      ((removePersonality sampleTwoFile "A").getD sampleTwoFile).personalities
      "A" = none ∧
    lookupKey
      (((((removePersonality sampleTwoFile "A").getD
        sampleTwoFile)).states).getD []) "A" = none ∧
    ("B" ≠ "A" →
      lookupKey
        ((removePersonality sampleTwoFile "A").getD
          sampleTwoFile).personalities "B" =
        lookupKey sampleTwoFile.personalities "B" ∧
      lookupKey
        (((((removePersonality sampleTwoFile "A").getD
          sampleTwoFile)).states).getD []) "B" =
        lookupKey ((sampleTwoFile.states).getD []) "B") ∧
    removePersonality
      { active := "Z", personalities := [("A", mkDef "Z")], states := none }
      "A" = none :=
  removePersonality_spec sampleTwoFile "A" "B" "Z" (mkDef "Z") none
    (by decide) (by decide)

/-- C5: after every load (single layer or merged), the returned store is
the raw store passed through the active-key fallback: when the raw
`active` does not index an existing profile it is reassigned to the first
key in insertion order (for a merge: global entries first, then the
project's new ones), it is kept unchanged otherwise, and the returned
store's `active` always indexes a profile whenever `profiles` is
non-empty. -/
theorem resolver_active_invariant (gp pp : String)
    (g p : Option PersonalityFile) (m gf pf : PersonalityFile)
    (hm : rawMerged g p = some m) (hne : m.personalities ≠ []) :
    (loadConfigWithPrecedence gp pp g p).file = some (fixActive m) ∧
    containsKey (fixActive m).personalities (fixActive m).active = true ∧
    (containsKey m.personalities m.active = false →
      (keysOf m.personalities).head? = some (fixActive m).active) ∧
    (containsKey m.personalities m.active = true →
      (fixActive m).active = m.active) ∧
    (g = some gf → p = some pf → (keysOf pf.personalities).Nodup →
      keysOf m.personalities =
        keysOf gf.personalities ++
          (keysOf pf.personalities).filter
            (fun k => !(containsKey gf.personalities k))) := by
  refine ⟨?_, ?_, ?_, ?_, ?_⟩
  · simp only [loadConfigWithPrecedence, hm]
  · cases hc : containsKey m.personalities m.active with
    | true => simp [fixActive, hc]
    | false =>
        cases hps : m.personalities with
        | nil => exact absurd hps hne
        | cons e rest =>
            obtain ⟨k, v⟩ := e
            rw [hps] at hc
            simp only [fixActive, hps, hc]
            rw [if_neg (by simp)]
            show containsKey ((k, v) :: rest) k = true
            simp [containsKey, lookupKey]
  · intro hc
    cases hps : m.personalities with
    | nil => exact absurd hps hne
    | cons e rest =>
        obtain ⟨k, v⟩ := e
        rw [hps] at hc
        simp only [fixActive, hps, hc, keysOf]
        rw [if_neg (by simp)]
        simp
  · intro hc
    simp [fixActive, hc]
  · intro hg hp hnodup
    subst hg
    subst hp
    have hmm : mergeFiles gf pf = m := by
      simpa [rawMerged] using hm
    rw [← hmm]
    show keysOf (spread gf.personalities pf.personalities) = _
    exact keysOf_spread gf.personalities pf.personalities hnodup

/-- Witness for C5 at the spec's merge scenario, where the project's
active key `C` exists in the merged map and is kept. -/
theorem resolver_active_invariant_witness :
    (loadConfigWithPrecedence "g.json" "p.json" (some exampleGlobalFile)
      (some exampleProjectFile)).file =
      some (fixActive (mergeFiles exampleGlobalFile exampleProjectFile)) ∧
    containsKey
      (fixActive (mergeFiles exampleGlobalFile exampleProjectFile)).personalities
      (fixActive (mergeFiles exampleGlobalFile exampleProjectFile)).active =
      true ∧
    (containsKey (mergeFiles exampleGlobalFile exampleProjectFile).personalities
        (mergeFiles exampleGlobalFile exampleProjectFile).active = false →
      (keysOf (mergeFiles exampleGlobalFile exampleProjectFile).personalities).head? =
        some (fixActive (mergeFiles exampleGlobalFile exampleProjectFile)).active) ∧
    (containsKey (mergeFiles exampleGlobalFile exampleProjectFile).personalities
        (mergeFiles exampleGlobalFile exampleProjectFile).active = true →
      (fixActive (mergeFiles exampleGlobalFile exampleProjectFile)).active =
        (mergeFiles exampleGlobalFile exampleProjectFile).active) ∧
    (some exampleGlobalFile = some exampleGlobalFile →
      some exampleProjectFile = some exampleProjectFile →
      (keysOf exampleProjectFile.personalities).Nodup →
      keysOf (mergeFiles exampleGlobalFile exampleProjectFile).personalities =
        keysOf exampleGlobalFile.personalities ++
          (keysOf exampleProjectFile.personalities).filter
            (fun k => !(containsKey exampleGlobalFile.personalities k))) :=
  resolver_active_invariant "g.json" "p.json" (some exampleGlobalFile)
    (some exampleProjectFile) (mergeFiles exampleGlobalFile exampleProjectFile)
    exampleGlobalFile exampleProjectFile rfl (by decide)

/-- C8: persisting a mood state on a missing store is a silent no-op that
never fabricates a store, and on an existing store it replaces only
`states[key]`: `active`, every profile definition and every other key's
state are carried over unchanged. -/
theorem saveMoodState_frame (st : MoodState) (k : String)
    (file : PersonalityFile) (k' : String) (h : k' ≠ k) :
    saveMoodState none st k = none ∧
    saveMoodState (some file) st k = some (writeBackStates file st k) ∧
    (writeBackStates file st k).active = file.active ∧
    (writeBackStates file st k).personalities = file.personalities ∧
    lookupKey (((writeBackStates file st k).states).getD []) k = some st ∧
    lookupKey (((writeBackStates file st k).states).getD []) k' =
      lookupKey ((file.states).getD []) k' := by
  refine ⟨rfl, rfl, rfl, rfl, ?_, ?_⟩
  · show lookupKey (setKey ((file.states).getD []) k st) k = some st
    rw [lookupKey_setKey, if_pos rfl]
  · show lookupKey (setKey ((file.states).getD []) k st) k' = _
    rw [lookupKey_setKey, if_neg (fun hh => h hh.symm)]

/-- Witness for C8 on a concrete two-profile store, saving under key `A`
and probing the untouched key `B`. -/
theorem saveMoodState_frame_witness :
    saveMoodState none sampleState "A" = none ∧
    saveMoodState (some sampleTwoFile) sampleState "A" =
      some (writeBackStates sampleTwoFile sampleState "A") ∧
    (writeBackStates sampleTwoFile sampleState "A").active =
      sampleTwoFile.active ∧
    (writeBackStates sampleTwoFile sampleState "A").personalities =
      sampleTwoFile.personalities ∧
    lookupKey (((writeBackStates sampleTwoFile sampleState "A").states).getD [])
      "A" = some sampleState ∧
    lookupKey (((writeBackStates sampleTwoFile sampleState "A").states).getD [])
      "B" = lookupKey ((sampleTwoFile.states).getD []) "B" :=
  saveMoodState_frame sampleState "A" sampleTwoFile "B" (by decide)

/-- C9: `savePersonalityToFile` preserves the invariant that `active`
indexes an existing personality, for every prior disk state including an
absent file: the written store's `active` is a member of its
personalities map, equal to `key` exactly when `setActive` is requested
or the prior active key does not resolve after the insert, and left
unchanged otherwise. -/
theorem savePersonality_active_invariant (disk : Option PersonalityFile)
    (key : String) (d : PersonalityDefinition) (setActive : Bool) :
    containsKey (savePersonalityToFile disk key d setActive).personalities
      (savePersonalityToFile disk key d setActive).active = true ∧
    (savePersonalityToFile disk key d setActive).active =
      (if setActive ||
          !(containsKey
            (setKey (disk.getD
              { active := key, personalities := [], states := none }).personalities
              key d)
            (disk.getD
              { active := key, personalities := [], states := none }).active)
       then key
       else (disk.getD
         { active := key, personalities := [], states := none }).active) := by
  simp only [savePersonalityToFile]
  cases hcond : (setActive ||
      !(containsKey
        (setKey (disk.getD
          { active := key, personalities := [], states := none }).personalities
          key d)
        (disk.getD
          { active := key, personalities := [], states := none }).active)) with
  | true =>
      rw [if_pos rfl, if_pos rfl]
      refine ⟨?_, rfl⟩
      show containsKey
        (setKey (disk.getD
          { active := key, personalities := [], states := none }).personalities
          key d) key = true
      rw [containsKey_setKey, if_pos rfl]
  | false =>
      rw [if_neg (by simp), if_neg (by simp)]
      refine ⟨?_, rfl⟩
      have hres : containsKey
          (setKey (disk.getD
            { active := key, personalities := [], states := none }).personalities
            key d)
          (disk.getD
            { active := key, personalities := [], states := none }).active =
          true := by
        rcases Bool.or_eq_false_iff.mp hcond with ⟨-, hb⟩
        simpa using hb
      exact hres

/-- C10: `loadPersonalityFile` treats a store as absent, returning `null`
without error, not only for a missing file but for every file whose
content parses to a falsy JSON value — the literals `null`, `false`, `0`
and the empty string. -/
theorem loadPersonalityFile_falsy (j : Json) (h : jsFalsy j = true) :
    loadPersonalityFile (some j) = none ∧
    loadPersonalityFile none = none ∧
    loadPersonalityFile (some Json.null) = none ∧
    loadPersonalityFile (some (Json.bool false)) = none ∧
    loadPersonalityFile (some (Json.num 0)) = none ∧
    loadPersonalityFile (some (Json.str "")) = none := by
  refine ⟨?_, rfl, rfl, rfl, by simp [loadPersonalityFile, jsFalsy],
    by simp [loadPersonalityFile, jsFalsy]⟩
  simp [loadPersonalityFile, h]

/-- Witness for C10 at the JSON literal `null`. -/
theorem loadPersonalityFile_falsy_witness :
    loadPersonalityFile (some Json.null) = none ∧
    loadPersonalityFile none = none ∧
    loadPersonalityFile (some Json.null) = none ∧
    loadPersonalityFile (some (Json.bool false)) = none ∧
    loadPersonalityFile (some (Json.num 0)) = none ∧
    loadPersonalityFile (some (Json.str "")) = none :=
  loadPersonalityFile_falsy Json.null rfl

/-! ## C4: drift determinism and override pinning

The claim quantifies over the prior state, catalog, magnitude and seed
only, but spec §4.3 makes `drift` a no-op whenever mood is disabled in
config; a disabled config together with an unexpired override whose
mood differs from `current` therefore refutes the claim as stated. -/

/-- A state carrying an unexpired override that differs from `current`
(reachable when normalization resets a stale `current` while keeping a
valid override). -/
def mismatchedOverrideState : MoodState :=
  { current := "happy"
    score := some 1
    lastUpdate := 0
    override := some "bored"
    overrideExpiry := none }

/-- C4 counterexample: with mood disabled, `drift` is a no-op, so the
output's `current` stays `"happy"` although the override `"bored"` is set
and unexpired — the claim's pinning clause fails without an
enabled-mood assumption. -/
theorem drift_override_counterexample :
    mismatchedOverrideState.override = some "bored" ∧
    mismatchedOverrideState.overrideExpiry = none ∧
    (drift mismatchedOverrideState DEFAULT_MOODS false (1/5) (some 42) 100
      0).current ≠ "bored" := by
  refine ⟨rfl, rfl, ?_⟩
  show mismatchedOverrideState.current ≠ "bored"
  decide

/-- C4 (amended): `drift` with a supplied seed is deterministic — the
entropy source never influences the output — and, when mood drift is
enabled, a set and unexpired override keeps `current` pinned to the
override with no numeric score change, regardless of the seed. -/
theorem drift_deterministic_override_pinned (state : MoodState)
    (moods : List MoodDefinition) (en : Bool) (dmag : ℚ) (s : ℕ) (now : ℤ)
    (e1 e2 : ℕ) (o : MoodName) :
    drift state moods en dmag (some s) now e1 =
      drift state moods en dmag (some s) now e2 ∧
    (en = true → state.override = some o →
      overrideUnexpiredAt state now = true →
      (drift state moods en dmag (some s) now e1).current = o ∧
      (drift state moods en dmag (some s) now e1).score = state.score) := by
  constructor
  · cases moods with
    | nil => rfl
    | cons m0 rest => rfl
  · intro hen hov hexp
    subst hen
    simp [drift, hov, hexp]

/-- A state pinned by an unexpired override, used to witness C4. -/
def pinnedState : MoodState :=
  { current := "bored"
    score := some (-2)
    lastUpdate := 0
    override := some "bored"
    overrideExpiry := some 50 }

/-- Witness for C4's amended theorem at a pinned state with seed 7 and
two different entropy draws. -/
theorem drift_deterministic_override_pinned_witness :
    drift pinnedState DEFAULT_MOODS true (1/5) (some 7) 10 0 =
      drift pinnedState DEFAULT_MOODS true (1/5) (some 7) 10 99 ∧
    (drift pinnedState DEFAULT_MOODS true (1/5) (some 7) 10 0).current =
      "bored" ∧
    (drift pinnedState DEFAULT_MOODS true (1/5) (some 7) 10 0).score =
      pinnedState.score :=
  ⟨(drift_deterministic_override_pinned pinnedState DEFAULT_MOODS true (1/5)
      7 10 0 99 "bored").1,
   ((drift_deterministic_override_pinned pinnedState DEFAULT_MOODS true (1/5)
      7 10 0 99 "bored").2 rfl rfl (by decide)).1,
   ((drift_deterministic_override_pinned pinnedState DEFAULT_MOODS true (1/5)
      7 10 0 99 "bored").2 rfl rfl (by decide)).2⟩

end OpencodePersonality
